import Mathlib

/-
Verification of the s3bin content-addressed binary cache
(src/cmd/s3bin/s3bin.go) via a shallow embedding in Lean 4.

Modelling conventions:
 * Byte sequences are `List Nat` (each element a byte value); Go string
   operations that are byte-based (len, TrimSpace, ToLower, slicing) are
   modelled on these lists, restricted to ASCII where Go would apply
   Unicode rules (all data the program handles at those sites is ASCII
   hex / whitespace).
 * The tar-in-gzip envelope produced by `compress/gzip` + `archive/tar`
   is modelled structurally: a `Blob` is either undecodable
   (`Blob.invalid`, the case where `gzip.NewReader` or `tarReader.Next`
   fails on corrupt input) or a list of tar entries, each carrying its
   name, mode and content.  The Go libraries are external collaborators;
   their encode/decode is faithful and deterministic for the entries the
   program writes.
 * `crypto/sha1` is an external collaborator: the embedding is
   parameterised by the digest function `h : Bytes → Bytes`; the library
   guarantees its output has length `sha1.Size = 20`.
 * Filesystem and S3 are capabilities: a read-only snapshot
   `fs : String → FileRes` and `store : Bytes → Option Blob`
   (`none` = GetObject error, including not-found).  Side effects are
   recorded as an `Event` trace: `fsRead p` (an open/read attempt on
   path `p`), `storeGet k` / `storePut k b` (S3 access at key `k`),
   `fsWrite p c` (os.Create + io.Copy of content `c` to `p`),
   `chmod p m` (f.Chmod).  "No store contact" / "target unchanged" are
   the absence of the corresponding events in the trace.
 * `github.com/pkg/errors`: `errors.Wrap`/`Wrapf` return nil when the
   wrapped error is nil.  Two sites in Get (s3bin.go:156 and
   s3bin.go:213) wrap an `err` variable that is nil at that point, so
   those branches return success; the embedding reproduces this.
-/

abbrev Bytes := List Nat

/-- Bytes of a (pure-ASCII) Lean string literal. -/
def strBytes (s : String) : Bytes := s.toList.map Char.toNat

/-- Go `strings.ToLower`, restricted to ASCII input. -/
def toLowerB (bs : Bytes) : Bytes :=
  bs.map fun b => if 65 ≤ b ∧ b ≤ 90 then b + 32 else b

/-- ASCII whitespace recognised by `strings.TrimSpace` (the program only
meets ASCII pointer files). -/
def isSpaceB (b : Nat) : Bool :=
  b = 9 ∨ b = 10 ∨ b = 11 ∨ b = 12 ∨ b = 13 ∨ b = 32

/-- Go `strings.TrimSpace` on bytes. -/
def trimSpaceB (bs : Bytes) : Bytes :=
  ((bs.dropWhile isSpaceB).reverse.dropWhile isSpaceB).reverse

/-- One hex digit of Go `encoding/hex` (lowercase alphabet). -/
def hexDig (n : Nat) : Nat := if n < 10 then 48 + n else 87 + n

/-- Go `hex.EncodeToString`: two lowercase hex digits per byte. -/
def hexEncode (bs : Bytes) : Bytes :=
  bs.foldr (fun b acc => hexDig (b / 16) :: hexDig (b % 16) :: acc) []

/-- The digest-to-text step of `calcSha1` (s3bin.go:276):
`strings.ToLower(hex.EncodeToString(hash.Sum(nil)))`, as a function of
the digest function `h` and the hashed content. -/
def calcSha1B (h : Bytes → Bytes) (content : Bytes) : Bytes :=
  toLowerB (hexEncode (h content))

/-- Go `strings.HasSuffix` on the character data of two strings (the
suffixes used by the program are ASCII, so byte and char suffixes
agree). -/
def hasSuffixStr (s suffix : String) : Bool :=
  suffix.toList.isSuffixOf s.toList

/-- Go `strings.TrimSuffix`: drop the suffix when present, otherwise
return the string unchanged. -/
def trimSuffix (s suffix : String) : String :=
  if hasSuffixStr s suffix then
    String.mk (s.toList.take (s.toList.length - suffix.toList.length))
  else s

def sha1Suffix : String := ".sha1"

/-- The supported schema version: Go `const version = 1` (s3bin.go:36). -/
def version : Int := 1

/-- One tar entry as written/read by `archive/tar`: name, mode and
content (the Size field always equals the content length for in-memory
archives, so it is not modelled separately). -/
structure TarEntry where
  name : String
  mode : Int
  content : Bytes
deriving DecidableEq, Repr

/-- A stored object as seen through gzip + tar: `invalid` when
`gzip.NewReader` or the first `tarReader.Next` fails on data that is not
a well-formed gzipped tar; otherwise the decoded entry list. -/
inductive Blob where
  | invalid
  | entries (es : List TarEntry)
deriving DecidableEq, Repr

/-- Decimal digits (as bytes) of a natural number, as Go would print it. -/
def natDigits (n : Nat) : Bytes := (Nat.toDigits 10 n).map Char.toNat

/-- Decimal bytes of an integer, as `encoding/json` marshals an `int`. -/
def intBytes (v : Int) : Bytes :=
  if v < 0 then 45 :: natDigits v.natAbs else natDigits v.toNat

/-- Go `json.Marshal(&Header{Version: v})`: the exact bytes
of the object with single field "version" (s3bin.go:38-40, 84). -/
def marshalHeader (v : Int) : Bytes :=
  strBytes "\x7b\"version\":" ++ intBytes v ++ [125]

/-- Digit-string to number accumulator. -/
def digitsToNat (bs : Bytes) : Nat :=
  bs.foldl (fun acc d => acc * 10 + (d - 48)) 0

def parseNatB (bs : Bytes) : Option Nat :=
  if bs ≠ [] ∧ bs.all (fun d => decide (48 ≤ d ∧ d ≤ 57)) then
    some (digitsToNat bs)
  else none

def parseIntB (bs : Bytes) : Option Int :=
  match bs with
  | 45 :: rest => (parseNatB rest).map (fun n => -(n : Int))
  | _ => (parseNatB bs).map (fun n => (n : Int))

/-- Go `json.Unmarshal(headerBytes, &header)` reading the Version field
(s3bin.go:206-210), modelled on the canonical encoding produced by
`json.Marshal` (the only encoding any claim exercises); anything else is
a parse failure. -/
def parseHeader (bs : Bytes) : Option Int :=
  let pre := strBytes "\x7b\"version\":"
  if pre.isPrefixOf bs ∧ bs.getLast? = some 125 ∧ pre.length + 1 ≤ bs.length then
    parseIntB ((bs.drop pre.length).dropLast)
  else none

/-- The envelope-construction stage of Put (s3bin.go:80-122): a tar
archive with entry "header" (mode 0600 = 384, content the marshalled
`Header{Version: version}`) followed by entry "data" (the file's mode
and raw bytes), gzipped as a whole.  The header version is the constant
`version`; Put constructs no other header. -/
def packPut (data : Bytes) (mode : Int) : Blob :=
  .entries [⟨"header", 384, marshalHeader version⟩, ⟨"data", mode, data⟩]

/-- Errors distinguishable at the model's level (one constructor per
distinct `return err` site the claims need). -/
inductive GErr where
  | namingErr
  | sha1ReadFailed
  | localReadFailed
  | storeGetFailed
  | gzipInvalid
  | tarNextFailed
  | noHeaderEntry
  | jsonFailed
  | noDataEntry
  | readFailed
deriving DecidableEq, Repr

/-- Outcome of the envelope-reading stage of Get (s3bin.go:186-223):
either an error; or `earlyOk` — the branch `header.Version != version`
(s3bin.go:212-214) whose `errors.Wrapf(err, ...)` wraps a nil `err` and
therefore returns nil, making Get return success without reading the
data entry; or the decoded (version, data, mode) triple. -/
inductive UnpackResult where
  | ok (hdrVersion : Int) (data : Bytes) (mode : Int)
  | earlyOk
  | err (e : GErr)
deriving DecidableEq, Repr

/-- The envelope-reading stage of Get (s3bin.go:186-223): gunzip, read
the first tar entry (must be named "header"), unmarshal its JSON, check
the version, read the second entry (must be named "data"), and return
its content and mode. -/
def unpack (b : Blob) : UnpackResult :=
  match b with
  | .invalid => .err .gzipInvalid
  | .entries [] => .err .tarNextFailed
  | .entries (e1 :: rest) =>
    if e1.name ≠ "header" then .err .noHeaderEntry
    else
      match parseHeader e1.content with
      | none => .err .jsonFailed
      | some v =>
        if v ≠ version then .earlyOk
        else
          match rest with
          | [] => .err .tarNextFailed
          | e2 :: _ =>
            if e2.name ≠ "data" then .err .noDataEntry
            else .ok v e2.content e2.mode

/-- Key derivation (s3bin.go:279-282): five 4-byte slices of the hash
joined with '/' (byte 47).  `(drop i).take 4` is the Go slice
`hash[i:i+4]` when in bounds. -/
def storeKey (hash : Bytes) : Bytes :=
  hash.take 4 ++ 47 :: ((hash.drop 4).take 4 ++ 47 ::
    ((hash.drop 8).take 4 ++ 47 :: ((hash.drop 12).take 4 ++ 47 ::
      (hash.drop 16).take 4)))

/-- Go slice expression `s[i:j]`, which panics when out of range:
`none` models the panic. -/
def goSlice (s : Bytes) (i j : Nat) : Option Bytes :=
  if i ≤ j ∧ j ≤ s.length then some ((s.drop i).take (j - i)) else none

/-- storeKey with every slice bounds-checked as Go's runtime checks it;
`none` means some slice in `storeKey` would panic. -/
def storeKeyChecked (hash : Bytes) : Option Bytes :=
  (goSlice hash 0 4).bind fun a =>
  (goSlice hash 4 8).bind fun b =>
  (goSlice hash 8 12).bind fun c =>
  (goSlice hash 12 16).bind fun d =>
  (goSlice hash 16 20).bind fun e =>
  some (a ++ 47 :: (b ++ 47 :: (c ++ 47 :: (d ++ 47 :: e))))

/-- Result of opening/reading a local file: content and mode on
success, or the two error classes Get distinguishes
(`os.IsNotExist(errors.Cause(err))` vs any other failure,
s3bin.go:159-171). -/
inductive FileRes where
  | ok (content : Bytes) (mode : Int)
  | notExist
  | otherErr
deriving DecidableEq, Repr

/-- Observable side effects of Put/Get, in program order. -/
inductive Event where
  | fsRead (path : String)
  | storeGet (key : Bytes)
  | storePut (key : Bytes) (blob : Blob)
  | fsWrite (path : String) (content : Bytes)
  | chmod (path : String) (mode : Int)
deriving DecidableEq, Repr

/-- Prepend earlier events to a (result, trace) pair. -/
def prependEv (pre : List Event) (pr : Option GErr × List Event) :
    Option GErr × List Event :=
  (pr.1, pre ++ pr.2)

/-- The download-and-restore tail of Get (s3bin.go:173-241): derive the
key, fetch the object, unpack it, and on full validation create the
target file, copy the data into it and chmod it to the recorded mode.
Writes are modelled as succeeding (their failure modes are external). -/
def download (store : Bytes → Option Blob) (targetFile : String)
    (sha1Str : Bytes) : Option GErr × List Event :=
  match store (storeKey sha1Str) with
  | none => (some .storeGetFailed, [.storeGet (storeKey sha1Str)])
  | some blob =>
    match unpack blob with
    | .err e => (some e, [.storeGet (storeKey sha1Str)])
    | .earlyOk => (none, [.storeGet (storeKey sha1Str)])
    | .ok _ data mode =>
      (none, [.storeGet (storeKey sha1Str), .fsWrite targetFile data,
        .chmod targetFile mode])

/-- The local-state comparison of Get (s3bin.go:159-171): hash the
existing target; if it matches the pointer digest the operation is a
no-op; on mismatch or absence download; any other read failure is
fatal. -/
def getLocal (h : Bytes → Bytes) (fs : String → FileRes)
    (store : Bytes → Option Blob) (targetFile : String)
    (sha1Str : Bytes) : Option GErr × List Event :=
  match fs targetFile with
  | .ok tb _ =>
    if calcSha1B h tb = sha1Str then (none, [.fsRead targetFile])
    else prependEv [.fsRead targetFile] (download store targetFile sha1Str)
  | .notExist => prependEv [.fsRead targetFile] (download store targetFile sha1Str)
  | .otherErr => (some .localReadFailed, [.fsRead targetFile])

/-- Get (s3bin.go:143-242).  The suffix check compares
`strings.TrimSuffix(sha1File, ".sha1")` with the original path; the
pointer content is trimmed, lowercased and length-checked — on a length
other than 40 the code executes `return errors.Wrapf(err, ...)` with
`err` nil (s3bin.go:156), which returns nil, so that branch is
success. -/
def Get (h : Bytes → Bytes) (fs : String → FileRes)
    (store : Bytes → Option Blob) (sha1File : String) :
    Option GErr × List Event :=
  let targetFile := trimSuffix sha1File sha1Suffix
  if targetFile = sha1File then (some .namingErr, [])
  else
    match fs sha1File with
    | .notExist => (some .sha1ReadFailed, [.fsRead sha1File])
    | .otherErr => (some .sha1ReadFailed, [.fsRead sha1File])
    | .ok pb _ =>
      let sha1Str := toLowerB (trimSpaceB pb)
      if sha1Str.length ≠ 40 then (none, [.fsRead sha1File])
      else prependEv [.fsRead sha1File] (getLocal h fs store targetFile sha1Str)

/-- Put (s3bin.go:63-141): hash the file (first read), reopen and stat
it and stream it into the envelope (second read), upload the blob at
the derived key, then write the pointer file `path + ".sha1"` holding
the hex digest. -/
def Put (h : Bytes → Bytes) (fs : String → FileRes) (path : String) :
    Option GErr × List Event :=
  match fs path with
  | .notExist => (some .readFailed, [.fsRead path])
  | .otherErr => (some .readFailed, [.fsRead path])
  | .ok content mode =>
    (none, [.fsRead path, .fsRead path,
      .storePut (storeKey (calcSha1B h content)) (packPut content mode),
      .fsWrite (path ++ sha1Suffix) (calcSha1B h content)])

/-- A stand-in digest function for concrete runs (crypto/sha1 is an
external collaborator; only its output length matters to the logic). -/
def hashZero : Bytes → Bytes := fun _ => List.replicate 20 0

/-- `calcSha1B hashZero` of anything: forty ASCII zeros. -/
def ptrZeros : Bytes := List.replicate 40 48

/-- A store with no objects. -/
def storeEmpty : Bytes → Option Blob := fun _ => none

/-- Filesystem for the version-mismatch run: a valid pointer file
`f.sha1`, no target file. -/
def fsV2 : String → FileRes := fun q =>
  if q = "f.sha1" then .ok ptrZeros 420 else .notExist

/-- A well-formed envelope whose header carries version 2. -/
def blobV2 : Blob :=
  .entries [⟨"header", 384, marshalHeader 2⟩, ⟨"data", 420, [1, 2, 3]⟩]

/-- Store holding the version-2 envelope at the pointer's derived key. -/
def storeV2 : Bytes → Option Blob := fun k =>
  if k = storeKey ptrZeros then some blobV2 else none

/-- Filesystem for the bad-length run: pointer file `f.sha1` contains
"abc" (three characters after trimming, not 40). -/
def fsAbc : String → FileRes := fun q =>
  if q = "f.sha1" then .ok (strBytes "abc") 420 else .notExist

/-- Filesystem for the up-to-date run: pointer `f.sha1` holds forty
zeros, target `f` is an empty file (whose hashZero digest is forty
zeros). -/
def fsUpToDate : String → FileRes := fun q =>
  if q = "f.sha1" then .ok ptrZeros 420
  else if q = "f" then .ok [] 420
  else .notExist

/-- A fetched blob that fails the validations Get performs before
creating the target file, in their code order (s3bin.go:186-223): not
decodable as gzipped tar; or first entry not named "header"; or header
JSON unparseable; or (with a parsed, supported version) second entry
not named "data".  (Version mismatch itself is not listed: that branch
returns nil rather than an error — see the C2 analysis.) -/
def failsValidation : Blob → Prop
  | .invalid => True
  | .entries [] => False
  | .entries (e1 :: rest) =>
    e1.name ≠ "header" ∨
    parseHeader e1.content = none ∨
    (parseHeader e1.content = some 1 ∧
      match rest with
      | [] => False
      | e2 :: _ => e2.name ≠ "data")

/-- A blob whose two entries are swapped: the first is "data". -/
def blobSwapped : Blob :=
  .entries [⟨"data", 420, [1]⟩, ⟨"header", 384, marshalHeader 1⟩]

/-- Store holding the swapped-entry blob at the pointer's derived key. -/
def storeSwapped : Bytes → Option Blob := fun k =>
  if k = storeKey ptrZeros then some blobSwapped else none

/-- A byte that is a lowercase hex character (0-9 or a-f). -/
def isLowerHex (b : Nat) : Prop :=
  (48 ≤ b ∧ b ≤ 57) ∨ (97 ≤ b ∧ b ≤ 102)

/-- A directory tree: the argument of GetDir.  Children are listed in
the (sorted) order `filepath.Walk` visits them. -/
inductive FTree where
  | file (name : String)
  | dir (name : String) (children : List FTree)

def FTree.nodeName : FTree → String
  | .file n => n
  | .dir n _ => n

/-- The callback's `filepath.Ext(path) != ".sha1"` test (s3bin.go:255).
`filepath.Ext` is the suffix of the final path element starting at its
last dot; since "sha1" contains no dot, `Ext(path) == ".sha1"` holds
exactly when the final element ends in ".sha1". -/
def hasSha1Ext (name : String) : Bool := hasSuffixStr name sha1Suffix

/-- Outcome of one `b.Get(path)` call inside the walk, abstracted as an
oracle `g` (Get's own behaviour is modelled separately); `ok [p]`
records the invocation, `error e` aborts the walk (s3bin.go:259). -/
def getCall (g : List String → Option GErr) (p : List String) :
    Except GErr (List (List String)) :=
  match g p with
  | none => .ok [p]
  | some e => .error e

/-- The non-directory part of the walk callback (s3bin.go:255-259):
skip names without the ".sha1" extension, invoke Get otherwise. -/
def extStep (g : List String → Option GErr) (name : String)
    (p : List String) : Except GErr (List (List String)) :=
  if hasSha1Ext name then getCall g p else .ok []

/-- Sequencing of two walk stages: an error in the first aborts
(`filepath.Walk` stops when the callback or a subtree returns an
error); otherwise the recorded Get invocations are concatenated in
order. -/
def seqCalls (a b : Except GErr (List (List String))) :
    Except GErr (List (List String)) :=
  match a with
  | .error e => .error e
  | .ok c1 =>
    match b with
    | .error e => .error e
    | .ok c2 => .ok (c1 ++ c2)

mutual
/-- `filepath.Walk(p, callback)` where the tree `t` is the root of this
walk: the callback sees `path == root`, so it skips the directory
branch (s3bin.go:251) and falls through to the extension check; then
Walk descends into the children. -/
def walkRooted (g : List String → Option GErr) (t : FTree)
    (p : List String) : Except GErr (List (List String)) :=
  match t with
  | .file n => extStep g n p
  | .dir n cs => seqCalls (extStep g n p) (walkList g cs p)
termination_by 2 * sizeOf t

/-- Walk's visit of a non-root node.  For a directory (not "." or
"..") the callback executes `return b.GetDir(path)` (s3bin.go:252) —
a fresh walk rooted at this node — and, when that succeeds, the outer
Walk additionally descends into the same children, so the subtree is
traversed twice. -/
def walkSub (g : List String → Option GErr) (t : FTree)
    (p : List String) : Except GErr (List (List String)) :=
  match t with
  | .file n => extStep g n p
  | .dir n cs =>
    if n = "." ∨ n = ".." then seqCalls (extStep g n p) (walkList g cs p)
    else seqCalls (walkRooted g (.dir n cs) p) (walkList g cs p)
termination_by 2 * sizeOf t + 1

/-- Walk's traversal of a directory's children, in order, aborting on
the first error. -/
def walkList (g : List String → Option GErr) (ts : List FTree)
    (p : List String) : Except GErr (List (List String)) :=
  match ts with
  | [] => .ok []
  | t :: rest =>
    seqCalls (walkSub g t (p ++ [t.nodeName])) (walkList g rest p)
termination_by 2 * sizeOf ts
end

/-- GetDir (s3bin.go:244-261): `filepath.Walk` over the tree rooted at
`p`, returning the ordered list of paths on which Get was invoked, or
the first error. -/
def GetDir (g : List String → Option GErr) (t : FTree)
    (p : List String) : Except GErr (List (List String)) :=
  walkRooted g t p

mutual
/-- Number of regular files in the tree whose name has the ".sha1"
extension (the claim's N). -/
def pointerFileCount : FTree → Nat
  | .file n => if hasSha1Ext n then 1 else 0
  | .dir _ cs => pointerFileCountList cs
termination_by t => sizeOf t

def pointerFileCountList : List FTree → Nat
  | [] => 0
  | t :: rest => pointerFileCount t + pointerFileCountList rest
termination_by ts => sizeOf ts
end

/-- The nested tree of the counterexample: root `r` containing
directory `d` containing the single pointer file `f.sha1`. -/
def treeNested : FTree := .dir "r" [.dir "d" [.file "f.sha1"]]

/-- A Get oracle on which every Get succeeds. -/
def gNone : List String → Option GErr := fun _ => none

/-- Modelled from the spec's words for comparison: "invokes Get exactly
once per pointer file ..., performs no action for the non-pointer
files, and aborts the entire traversal at the first error": walk the
names in order, call Get once on each ".sha1" name, skip the rest,
stop at the first error. -/
def specBatch (g : List String → Option GErr) (p : List String) :
    List String → Except GErr (List (List String))
  | [] => .ok []
  | n :: rest =>
    if hasSha1Ext n then
      match g (p ++ [n]) with
      | some e => .error e
      | none =>
        match specBatch g p rest with
        | .error e => .error e
        | .ok cs => .ok ((p ++ [n]) :: cs)
    else specBatch g p rest

/-- The flat children list of the C4 witness: two pointer files around
a non-pointer file. -/
def csFlat : List FTree := [.file "a.sha1", .file "x.txt", .file "b.sha1"]

/-- Oracle failing on the second pointer file. -/
def gFail : List String → Option GErr := fun p =>
  if p = ["r", "b.sha1"] then some .storeGetFailed else none

theorem parseHeader_marshal_one : parseHeader (marshalHeader 1) = some 1 := by decide

/-- C2: evaluating Get against a blob whose header deserializes to
version 2 (only version 1 is supported).  The claim and spec say this
fails with an UnsupportedVersionError; the code instead returns nil —
`errors.Wrapf(err, "unsupported version %d", ...)` at s3bin.go:213
wraps an `err` that is nil after the successful `json.Unmarshal`, and
pkg/errors returns nil for a nil argument — so Get reports success, and
silently leaves the target file unwritten (no fsWrite/chmod events
after the storeGet). -/
theorem c2_version_mismatch_returns_success :
    Get hashZero fsV2 storeV2 "f.sha1" =
      (none, [.fsRead "f.sha1", .fsRead "f", .storeGet (storeKey ptrZeros)]) := by
  decide

/-- C3: evaluating Get on a pointer file whose trimmed content is
"abc" (length 3, not 40).  The claim says Get fails with a FormatError
before any object-store access; the code instead returns nil —
`errors.Wrapf(err, "sha1 file %q is invalid", ...)` at s3bin.go:156
wraps an `err` that is nil after the successful ReadFile, and
pkg/errors returns nil for a nil argument — so Get reports success
having read only the pointer file (and the 40-length check is the only
validation: hexness of the content is never examined). -/
theorem c3_bad_length_returns_success :
    Get hashZero fsAbc storeEmpty "f.sha1" = (none, [.fsRead "f.sha1"]) := by
  decide

theorem trimSuffix_of_not_suffix (s suf : String)
    (hs : hasSuffixStr s suf = false) : trimSuffix s suf = s := by
  simp [trimSuffix, hs]

theorem trimSuffix_ne_of_suffix (s suf : String)
    (hs : hasSuffixStr s suf = true) (hne : suf.toList ≠ []) :
    trimSuffix s suf ≠ s := by
  have hsuffix : suf.toList <:+ s.toList := by
    simpa [hasSuffixStr, List.isSuffixOf_iff_suffix] using hs
  have hk : suf.toList.length ≤ s.toList.length := hsuffix.length_le
  intro heq
  have hdata : (trimSuffix s suf).toList = s.toList := by rw [heq]
  rw [trimSuffix, if_pos hs] at hdata
  have hlen : (s.toList.take (s.toList.length - suf.toList.length)).length
      = s.toList.length := by
    simpa [String.mk] using congrArg List.length hdata
  rw [List.length_take] at hlen
  have h0 : suf.toList.length = 0 := by omega
  exact hne (List.length_eq_zero.mp h0)

/-- C7: for every pointer path not ending in ".sha1", Get fails
immediately with the naming error (s3bin.go:143-147,
"SHA1 file doesn't have .sha1 extension") and the event trace is empty:
no filesystem read or write and no object-store access happened. -/
theorem c7_naming_error_no_access (h : Bytes → Bytes) (fs : String → FileRes)
    (store : Bytes → Option Blob) (sha1File : String)
    (hsuf : hasSuffixStr sha1File sha1Suffix = false) :
    Get h fs store sha1File = (some .namingErr, []) := by
  simp [Get, trimSuffix_of_not_suffix sha1File sha1Suffix hsuf]

/-- Witness for C7 at the concrete path "f.txt". -/
theorem c7_naming_error_no_access_witness :
    hasSuffixStr "f.txt" sha1Suffix = false ∧
    Get hashZero fsV2 storeEmpty "f.txt" = (some GErr.namingErr, []) :=
  ⟨by decide, c7_naming_error_no_access hashZero fsV2 storeEmpty "f.txt" (by decide)⟩

/-- C5: when the pointer file parses (trimmed, lowercased content of
length 40) and the sibling target file exists with a digest equal to
the pointer's digest, Get is a no-op (s3bin.go:159-163): it returns nil
and its whole trace is the two local reads — no storeGet, no fsWrite,
no chmod, so the object store is never contacted and neither file is
modified. -/
theorem c5_up_to_date_no_store (h : Bytes → Bytes) (fs : String → FileRes)
    (store : Bytes → Option Blob) (sha1File : String) (pb : Bytes) (pm : Int)
    (tb : Bytes) (tm : Int)
    (hsuf : hasSuffixStr sha1File sha1Suffix = true)
    (hp : fs sha1File = .ok pb pm)
    (hlen : (toLowerB (trimSpaceB pb)).length = 40)
    (ht : fs (trimSuffix sha1File sha1Suffix) = .ok tb tm)
    (hmatch : calcSha1B h tb = toLowerB (trimSpaceB pb)) :
    Get h fs store sha1File =
      (none, [.fsRead sha1File, .fsRead (trimSuffix sha1File sha1Suffix)]) := by
  have hne : trimSuffix sha1File sha1Suffix ≠ sha1File :=
    trimSuffix_ne_of_suffix sha1File sha1Suffix hsuf (by decide)
  simp [Get, hne, hp, hlen, getLocal, ht, hmatch, prependEv]

/-- Witness for C5 at a concrete up-to-date pointer/target pair. -/
theorem c5_up_to_date_no_store_witness :
    (hasSuffixStr "f.sha1" sha1Suffix = true ∧
     fsUpToDate "f.sha1" = .ok ptrZeros 420 ∧
     (toLowerB (trimSpaceB ptrZeros)).length = 40 ∧
     fsUpToDate (trimSuffix "f.sha1" sha1Suffix) = .ok [] 420 ∧
     calcSha1B hashZero [] = toLowerB (trimSpaceB ptrZeros)) ∧
    Get hashZero fsUpToDate storeEmpty "f.sha1" =
      (none, [.fsRead "f.sha1", .fsRead (trimSuffix "f.sha1" sha1Suffix)]) :=
  ⟨⟨by decide, by decide, by decide, by decide, by decide⟩,
   c5_up_to_date_no_store hashZero fsUpToDate storeEmpty "f.sha1" ptrZeros 420 [] 420
     (by decide) (by decide) (by decide) (by decide) (by decide)⟩

/-- C1: the envelope-reading stage of Get inverts the
envelope-construction stage of Put: for every byte sequence (including
the empty one) and every permission mode, unpacking the packed blob
yields exactly the header Put embeds (version 1), the payload bytes and
the mode.  The construction stage fixes the header to
`Header{Version: version}` (s3bin.go:36, 80-82), so that is the header
the round trip restores. -/
theorem c1_pack_unpack_roundtrip (data : Bytes) (mode : Int) :
    unpack (packPut data mode) = .ok version data mode := by
  simp [unpack, packPut, parseHeader_marshal_one, version]

theorem take20_decomp (s : Bytes) :
    s.take 20 = s.take 4 ++ ((s.drop 4).take 4 ++ ((s.drop 8).take 4 ++
      ((s.drop 12).take 4 ++ (s.drop 16).take 4))) := by
  rw [show (20 : Nat) = 4 + 16 by norm_num, List.take_add,
      show (16 : Nat) = 4 + 12 by norm_num, List.take_add,
      show (12 : Nat) = 4 + 8 by norm_num, List.take_add,
      show (8 : Nat) = 4 + 4 by norm_num, List.take_add,
      List.drop_drop, List.drop_drop, List.drop_drop]

theorem storeKey_take20 (s : Bytes) : storeKey (s.take 20) = storeKey s := by
  unfold storeKey
  simp [List.take_take, List.drop_take]

/-- C6: storeKey (s3bin.go:279-282) is a pure function mapping a
40-character digest to the five 4-character slices of its first 20
characters, in order, joined by '/' (byte 47); and it is injective over
the first 20 characters: two length-40 inputs produce equal keys
exactly when their first 20 characters agree. -/
theorem c6_storeKey_segments_injective (s1 s2 : Bytes)
    (h1 : s1.length = 40) (h2 : s2.length = 40) :
    (∃ a b c d e : Bytes,
        a.length = 4 ∧ b.length = 4 ∧ c.length = 4 ∧ d.length = 4 ∧
        e.length = 4 ∧
        a ++ (b ++ (c ++ (d ++ e))) = s1.take 20 ∧
        storeKey s1 = a ++ 47 :: (b ++ 47 :: (c ++ 47 :: (d ++ 47 :: e)))) ∧
    (storeKey s1 = storeKey s2 ↔ s1.take 20 = s2.take 20) := by
  constructor
  · refine ⟨s1.take 4, (s1.drop 4).take 4, (s1.drop 8).take 4,
      (s1.drop 12).take 4, (s1.drop 16).take 4, ?_, ?_, ?_, ?_, ?_,
      (take20_decomp s1).symm, rfl⟩
    all_goals simp [List.length_take, List.length_drop, h1]
  · constructor
    · intro heq
      unfold storeKey at heq
      have l1 : (s1.take 4).length = (s2.take 4).length := by
        simp [List.length_take, h1, h2]
      obtain ⟨e1, heq⟩ := List.append_inj heq l1
      simp only [List.cons.injEq] at heq
      obtain ⟨-, heq⟩ := heq
      have l2 : ((s1.drop 4).take 4).length = ((s2.drop 4).take 4).length := by
        simp [List.length_take, List.length_drop, h1, h2]
      obtain ⟨e2, heq⟩ := List.append_inj heq l2
      simp only [List.cons.injEq] at heq
      obtain ⟨-, heq⟩ := heq
      have l3 : ((s1.drop 8).take 4).length = ((s2.drop 8).take 4).length := by
        simp [List.length_take, List.length_drop, h1, h2]
      obtain ⟨e3, heq⟩ := List.append_inj heq l3
      simp only [List.cons.injEq] at heq
      obtain ⟨-, heq⟩ := heq
      have l4 : ((s1.drop 12).take 4).length = ((s2.drop 12).take 4).length := by
        simp [List.length_take, List.length_drop, h1, h2]
      obtain ⟨e4, e5⟩ := List.append_inj heq l4
      simp only [List.cons.injEq] at e5
      obtain ⟨-, e5⟩ := e5
      rw [take20_decomp, take20_decomp, e1, e2, e3, e4, e5]
    · intro hT
      calc storeKey s1 = storeKey (s1.take 20) := (storeKey_take20 s1).symm
        _ = storeKey (s2.take 20) := by rw [hT]
        _ = storeKey s2 := storeKey_take20 s2

/-- Witness for C6 at two concrete 40-byte digests that differ in the
first 20 bytes. -/
theorem c6_storeKey_segments_injective_witness :
    ((List.replicate 40 48).length = 40 ∧ (List.replicate 40 97).length = 40) ∧
    ((∃ a b c d e : Bytes,
        a.length = 4 ∧ b.length = 4 ∧ c.length = 4 ∧ d.length = 4 ∧
        e.length = 4 ∧
        a ++ (b ++ (c ++ (d ++ e))) = (List.replicate 40 48).take 20 ∧
        storeKey (List.replicate 40 48) =
          a ++ 47 :: (b ++ 47 :: (c ++ 47 :: (d ++ 47 :: e)))) ∧
      (storeKey (List.replicate 40 48) = storeKey (List.replicate 40 97) ↔
        (List.replicate 40 48).take 20 = (List.replicate 40 97).take 20)) :=
  ⟨⟨by decide, by decide⟩,
   c6_storeKey_segments_injective (List.replicate 40 48) (List.replicate 40 97)
     (by decide) (by decide)⟩

theorem hexEncode_length (bs : Bytes) : (hexEncode bs).length = 2 * bs.length := by
  induction bs with
  | nil => rfl
  | cons b t ih =>
    simp only [hexEncode, List.foldr_cons, List.length_cons] at *
    omega

theorem calcSha1B_length (h : Bytes → Bytes) (content : Bytes)
    (hl : (h content).length = 20) : (calcSha1B h content).length = 40 := by
  simp [calcSha1B, toLowerB, hexEncode_length, hl]

theorem storeKeyChecked_of_long (s : Bytes) (hs : 20 ≤ s.length) :
    storeKeyChecked s = some (storeKey s) := by
  have h4 : 4 ≤ s.length := by omega
  have h8 : 8 ≤ s.length := by omega
  have h12 : 12 ≤ s.length := by omega
  have h16 : 16 ≤ s.length := by omega
  simp [storeKeyChecked, goSlice, storeKey, h4, h8, h12, h16, hs]

theorem download_storeGet_key (store : Bytes → Option Blob) (t : String)
    (s : Bytes) (k : Bytes)
    (hm : Event.storeGet k ∈ (download store t s).2) : k = storeKey s := by
  unfold download at hm
  cases hst : store (storeKey s) with
  | none => simp [hst] at hm; exact hm
  | some blob =>
    simp only [hst] at hm
    cases hub : unpack blob <;> simp [hub] at hm <;> tauto

theorem getLocal_storeGet_key (h : Bytes → Bytes) (fs : String → FileRes)
    (store : Bytes → Option Blob) (t : String) (s : Bytes) (k : Bytes)
    (hm : Event.storeGet k ∈ (getLocal h fs store t s).2) : k = storeKey s := by
  unfold getLocal at hm
  cases hft : fs t with
  | ok tb tm =>
    rw [hft] at hm
    by_cases hd : calcSha1B h tb = s
    · simp [hd] at hm
    · simp [hd, prependEv] at hm
      exact download_storeGet_key store t s k hm
  | notExist =>
    rw [hft] at hm
    simp [prependEv] at hm
    exact download_storeGet_key store t s k hm
  | otherErr => rw [hft] at hm; simp at hm

/-- C9: the slicing in storeKey is always in bounds.  First part: the
Put call site — `calcSha1` of any content is 40 characters long (two
hex digits per byte of the 20-byte SHA-1 sum), and on it every slice of
storeKey passes Go's bounds check (`storeKeyChecked` succeeds and
agrees with `storeKey`).  Second part: the Get call site — every
object-store access Get ever performs uses a key obtained by applying
storeKey to a string of length exactly 40 (the trimmed, lowercased
pointer content behind the length-40 guard at s3bin.go:155), on which
the bounds-checked slicing also succeeds, so storeKey never panics. -/
theorem c9_storeKey_in_bounds :
    (∀ (h : Bytes → Bytes) (content : Bytes), (h content).length = 20 →
      (calcSha1B h content).length = 40 ∧
      storeKeyChecked (calcSha1B h content) =
        some (storeKey (calcSha1B h content))) ∧
    (∀ (h : Bytes → Bytes) (fs : String → FileRes)
      (store : Bytes → Option Blob) (p : String) (k : Bytes),
      Event.storeGet k ∈ (Get h fs store p).2 →
      ∃ s : Bytes, s.length = 40 ∧ k = storeKey s ∧
        storeKeyChecked s = some k) := by
  constructor
  · intro h content hl
    have h40 := calcSha1B_length h content hl
    exact ⟨h40, storeKeyChecked_of_long _ (by omega)⟩
  · intro h fs store p k hm
    simp only [Get] at hm
    split at hm
    · simp at hm
    · split at hm
      · simp at hm
      · simp at hm
      · split at hm
        · simp at hm
        · rename_i hlen
          have hlen40 := not_not.mp hlen
          simp [prependEv] at hm
          have hk := getLocal_storeGet_key h fs store _ _ k hm
          refine ⟨_, hlen40, hk, ?_⟩
          rw [hk]
          exact storeKeyChecked_of_long _ (by omega)

/-- Witness for C9: both parts applied at concrete inputs (the
hashZero digest function; a concrete Get run that performs a store
access). -/
theorem c9_storeKey_in_bounds_witness :
    ((hashZero []).length = 20 ∧
      (calcSha1B hashZero []).length = 40 ∧
      storeKeyChecked (calcSha1B hashZero []) =
        some (storeKey (calcSha1B hashZero []))) ∧
    (Event.storeGet (storeKey ptrZeros) ∈ (Get hashZero fsV2 storeV2 "f.sha1").2 ∧
      ∃ s : Bytes, s.length = 40 ∧ storeKey ptrZeros = storeKey s ∧
        storeKeyChecked s = some (storeKey ptrZeros)) :=
  ⟨⟨by decide, c9_storeKey_in_bounds.1 hashZero [] (by decide)⟩,
   ⟨by decide,
    c9_storeKey_in_bounds.2 hashZero fsV2 storeV2 "f.sha1" (storeKey ptrZeros)
      (by decide)⟩⟩

theorem failsValidation_unpack_err (b : Blob) (hb : failsValidation b) :
    ∃ e, unpack b = .err e := by
  cases b with
  | invalid => exact ⟨.gzipInvalid, rfl⟩
  | entries es =>
    cases es with
    | nil => exact absurd hb (by simp [failsValidation])
    | cons e1 rest =>
      simp only [failsValidation] at hb
      by_cases hn : e1.name = "header"
      · rcases hb with hb | hb | ⟨hp1, hb⟩
        · exact absurd hn hb
        · exact ⟨.jsonFailed, by simp [unpack, hn, hb]⟩
        · cases rest with
          | nil => exact absurd hb (by simp)
          | cons e2 tail =>
            refine ⟨.noDataEntry, ?_⟩
            simp only at hb
            simp [unpack, hn, hp1, version, hb]
      · exact ⟨.noHeaderEntry, by simp [unpack, hn]⟩

/-- C10: Get never creates or truncates the target file before the
fetched blob is fully validated.  Whenever Get reaches the download
(valid pointer, target absent or stale) and the fetched blob fails
validation — bad gzip, first entry not "header", unparseable header
JSON, or second entry not "data" — Get returns an error and its whole
trace is the two reads plus the one store fetch: no fsWrite and no
chmod event, so the local target file is untouched. -/
theorem c10_no_write_before_validation (h : Bytes → Bytes)
    (fs : String → FileRes) (store : Bytes → Option Blob)
    (sha1File : String) (pb : Bytes) (pm : Int) (blob : Blob)
    (hsuf : hasSuffixStr sha1File sha1Suffix = true)
    (hp : fs sha1File = .ok pb pm)
    (hlen : (toLowerB (trimSpaceB pb)).length = 40)
    (htar : fs (trimSuffix sha1File sha1Suffix) = .notExist ∨
      ∃ tb tm, fs (trimSuffix sha1File sha1Suffix) = .ok tb tm ∧
        calcSha1B h tb ≠ toLowerB (trimSpaceB pb))
    (hstore : store (storeKey (toLowerB (trimSpaceB pb))) = some blob)
    (hbad : failsValidation blob) :
    ∃ e : GErr, Get h fs store sha1File =
      (some e, [.fsRead sha1File, .fsRead (trimSuffix sha1File sha1Suffix),
        .storeGet (storeKey (toLowerB (trimSpaceB pb)))]) := by
  obtain ⟨e, hup⟩ := failsValidation_unpack_err blob hbad
  have hne : trimSuffix sha1File sha1Suffix ≠ sha1File :=
    trimSuffix_ne_of_suffix sha1File sha1Suffix hsuf (by decide)
  refine ⟨e, ?_⟩
  have hdl : download store (trimSuffix sha1File sha1Suffix)
      (toLowerB (trimSpaceB pb)) =
      (some e, [.storeGet (storeKey (toLowerB (trimSpaceB pb)))]) := by
    unfold download
    rw [hstore]
    simp [hup]
  rcases htar with hmiss | ⟨tb, tm, hok, hmis⟩
  · simp [Get, hne, hp, hlen, getLocal, hmiss, prependEv, hdl]
  · simp [Get, hne, hp, hlen, getLocal, hok, hmis, prependEv, hdl]

/-- Witness for C10 at a concrete run fetching the swapped-entry blob. -/
theorem c10_no_write_before_validation_witness :
    (hasSuffixStr "f.sha1" sha1Suffix = true ∧
     fsV2 "f.sha1" = .ok ptrZeros 420 ∧
     (toLowerB (trimSpaceB ptrZeros)).length = 40 ∧
     fsV2 (trimSuffix "f.sha1" sha1Suffix) = .notExist ∧
     storeSwapped (storeKey (toLowerB (trimSpaceB ptrZeros))) = some blobSwapped ∧
     failsValidation blobSwapped) ∧
    (∃ e : GErr, Get hashZero fsV2 storeSwapped "f.sha1" =
      (some e, [.fsRead "f.sha1", .fsRead (trimSuffix "f.sha1" sha1Suffix),
        .storeGet (storeKey (toLowerB (trimSpaceB ptrZeros)))])) :=
  ⟨⟨by decide, by decide, by decide, by decide, by decide, Or.inl (by decide)⟩,
   c10_no_write_before_validation hashZero fsV2 storeSwapped "f.sha1" ptrZeros 420
     blobSwapped (by decide) (by decide) (by decide) (Or.inl (by decide))
     (by decide) (Or.inl (by decide))⟩

theorem hexDig_lower (n : Nat) (hn : n ≤ 15) : isLowerHex (hexDig n) := by
  unfold isLowerHex hexDig
  split <;> omega

theorem hexEncode_lower (d : Bytes) (hd : ∀ y ∈ d, y < 256) :
    ∀ x ∈ hexEncode d, isLowerHex x := by
  induction d with
  | nil => intro x hx; simp [hexEncode] at hx
  | cons b t ih =>
    intro x hx
    have hb : b < 256 := hd b (by simp)
    have ht : ∀ y ∈ t, y < 256 := fun y hy => hd y (by simp [hy])
    simp only [hexEncode, List.foldr_cons] at hx
    rcases List.mem_cons.mp hx with rfl | hx
    · exact hexDig_lower _ (by omega)
    · rcases List.mem_cons.mp hx with rfl | hx
      · exact hexDig_lower _ (by omega)
      · exact ih ht x hx

theorem calcSha1B_lower (h : Bytes → Bytes) (c : Bytes)
    (hb : ∀ y ∈ h c, y < 256) : ∀ x ∈ calcSha1B h c, isLowerHex x := by
  intro x hx
  simp only [calcSha1B, toLowerB, List.mem_map] at hx
  obtain ⟨y, hy, rfl⟩ := hx
  have hly := hexEncode_lower (h c) hb y hy
  unfold isLowerHex at hly ⊢
  split_ifs with hc
  · omega
  · exact hly

/-- C8: Put is idempotent because its effects are a pure function of
the file's bytes and mode: any two runs over filesystems agreeing on
the file produce identical effect traces; that trace uploads the one
blob `packPut content mode` at the one key
`storeKey (calcSha1B h content)` and writes the pointer file at
`path ++ ".sha1"` whose content is the digest text; and the digest text
consists solely of lowercase hex characters. -/
theorem c8_put_idempotent (h : Bytes → Bytes) (fs1 fs2 : String → FileRes)
    (path : String) (content : Bytes) (mode : Int)
    (h1 : fs1 path = .ok content mode) (h2 : fs2 path = .ok content mode)
    (hb : ∀ y ∈ h content, y < 256) :
    Put h fs1 path = Put h fs2 path ∧
    Put h fs1 path = (none, [.fsRead path, .fsRead path,
      .storePut (storeKey (calcSha1B h content)) (packPut content mode),
      .fsWrite (path ++ sha1Suffix) (calcSha1B h content)]) ∧
    (∀ x ∈ calcSha1B h content, isLowerHex x) := by
  refine ⟨?_, ?_, calcSha1B_lower h content hb⟩
  · simp [Put, h1, h2]
  · simp [Put, h1]

/-- Witness for C8 at a concrete file (`f`, empty content, mode 420). -/
theorem c8_put_idempotent_witness :
    (fsUpToDate "f" = .ok [] 420 ∧ ∀ y ∈ hashZero [], y < 256) ∧
    (Put hashZero fsUpToDate "f" = Put hashZero fsUpToDate "f" ∧
     Put hashZero fsUpToDate "f" = (none, [.fsRead "f", .fsRead "f",
       .storePut (storeKey (calcSha1B hashZero [])) (packPut [] 420),
       .fsWrite ("f" ++ sha1Suffix) (calcSha1B hashZero [])]) ∧
     (∀ x ∈ calcSha1B hashZero [], isLowerHex x)) :=
  ⟨⟨by decide, by decide⟩,
   c8_put_idempotent hashZero fsUpToDate fsUpToDate "f" [] 420
     (by decide) (by decide) (by decide)⟩

theorem seqCalls_ok_nil (b : Except GErr (List (List String))) :
    seqCalls (.ok []) b = b := by
  cases b <;> simp [seqCalls]

/-- C4 counterexample: on a tree with exactly one pointer file (inside
one subdirectory) where every Get succeeds, GetDir invokes Get twice on
that pointer file — once through the callback's recursive
`b.GetDir(path)` on the subdirectory and once when the outer
`filepath.Walk` descends into the same subdirectory — refuting
"exactly once per pointer file (exactly N invocations total)". -/
theorem c4_getdir_twice_counterexample :
    GetDir gNone treeNested ["r"] =
      .ok [["r", "d", "f.sha1"], ["r", "d", "f.sha1"]] ∧
    pointerFileCount treeNested = 1 := by
  have s1 : walkList gNone [FTree.file "f.sha1"] ["r", "d"] =
      .ok [["r", "d", "f.sha1"]] := by
    rw [walkList, walkSub, walkList]
    rfl
  have s2 : walkRooted gNone (FTree.dir "d" [FTree.file "f.sha1"]) ["r", "d"] =
      .ok [["r", "d", "f.sha1"]] := by
    rw [walkRooted, s1]
    rfl
  have s3 : walkSub gNone (FTree.dir "d" [FTree.file "f.sha1"]) ["r", "d"] =
      .ok [["r", "d", "f.sha1"], ["r", "d", "f.sha1"]] := by
    rw [walkSub, if_neg (by decide), s2, s1]
    rfl
  have s4 : walkList gNone [FTree.dir "d" [FTree.file "f.sha1"]] ["r"] =
      .ok [["r", "d", "f.sha1"], ["r", "d", "f.sha1"]] := by
    rw [walkList]
    simp only [FTree.nodeName, List.cons_append, List.nil_append]
    rw [s3, walkList]
    rfl
  constructor
  · show walkRooted gNone treeNested ["r"] = _
    rw [treeNested, walkRooted, s4]
    rfl
  · simp [pointerFileCount, pointerFileCountList, treeNested,
      (by decide : hasSha1Ext "f.sha1" = true),
      (by decide : hasSha1Ext "d" = false)]

theorem walkList_flat (g : List String → Option GErr) (p : List String) :
    ∀ cs : List FTree, (∀ t ∈ cs, ∃ n, t = FTree.file n) →
    walkList g cs p = specBatch g p (cs.map FTree.nodeName)
  | [], _ => by simp [walkList, specBatch]
  | t :: rest, hflat => by
    obtain ⟨n, rfl⟩ := hflat t (by simp)
    have ih := walkList_flat g p rest (fun u hu => hflat u (by simp [hu]))
    simp only [walkList, walkSub, FTree.nodeName, List.map_cons, specBatch,
      extStep]
    by_cases hn : hasSha1Ext n
    · simp only [hn, if_true]
      cases hg : g (p ++ [n]) with
      | some e => simp [getCall, hg, seqCalls]
      | none =>
        simp only [getCall, hg]
        rw [ih]
        cases hsb : specBatch g p (rest.map FTree.nodeName) with
        | error e => simp [seqCalls]
        | ok cs2 => simp [seqCalls]
    · simp only [hn, if_false, Bool.false_eq_true]
      rw [seqCalls_ok_nil, ih]

/-- C4 as amended: over a flat tree — root directory (whose own name
lacks the ".sha1" extension) whose children are all regular files —
GetDir invokes Get exactly once per pointer file, in order, performs
no action for the other files, and aborts at the first Get error,
processing no later pointer file: it equals the batch the spec
describes.  (In nested trees the exactly-once part fails — see the
counterexample — because the callback's self-recursion re-walks every
subdirectory: a pointer file k levels deep is processed 2^k times.) -/
theorem c4_flat_exact_once (g : List String → Option GErr) (rn : String)
    (cs : List FTree) (p : List String)
    (hflat : ∀ t ∈ cs, ∃ n, t = FTree.file n)
    (hroot : hasSha1Ext rn = false) :
    GetDir g (.dir rn cs) p = specBatch g p (cs.map FTree.nodeName) := by
  unfold GetDir
  simp only [walkRooted, extStep, hroot, Bool.false_eq_true, if_false]
  rw [seqCalls_ok_nil]
  exact walkList_flat g p cs hflat

/-- Witness for the amended C4 on a concrete flat tree with a failing
Get. -/
theorem c4_flat_exact_once_witness :
    ((∀ t ∈ csFlat, ∃ n, t = FTree.file n) ∧ hasSha1Ext "r" = false) ∧
    GetDir gFail (.dir "r" csFlat) ["r"] =
      specBatch gFail ["r"] (csFlat.map FTree.nodeName) := by
  have hf : ∀ t ∈ csFlat, ∃ n, t = FTree.file n := by
    intro t ht
    simp only [csFlat, List.mem_cons, List.not_mem_nil, or_false] at ht
    rcases ht with rfl | rfl | rfl <;> exact ⟨_, rfl⟩
  exact ⟨⟨hf, by decide⟩,
    c4_flat_exact_once gFail "r" csFlat ["r"] hf (by decide)⟩
